import Mathlib

/-!
Shallow embedding of `src/plan/optimizer.go` from the tidb plan package:
the optimization entry point `Optimize`, the statement-preparation entry
point `PrepareStmt`, and the optimizer error-code table installed by
`init`.  External collaborators (`InferType`, `logicOptimize`, the plan
builder, the logical-plan rewrite methods, `Refine`, `Preprocess`,
`Validate`) live outside this file's source and are modelled as an
oracle record of functions; `Optimize` is transcribed from the source's
control flow over that oracle.  Each run records the sequence of
collaborator calls it makes, with their arguments, so that ordering and
branching claims can be stated about the trace.  The two heap
allocations made when the plan builder is constructed (`make(map...)`
for `colMapper`, `new(idAllocator)`) are modelled with an explicit
allocation counter threaded through the call.
-/

namespace TidbPlan

/-- An AST node, abstracted to what `Optimize` inspects: whether the
dynamic type is `*ast.SelectStmt`, plus an identity tag. -/
structure Node where
  isSelectStmt : Bool
  tag : Nat
deriving DecidableEq

/-- Plans, logical plans, physical plans, schemas and expressions are
opaque values to the orchestration code; identity is all that matters. -/
abbrev Plan := Nat

abbrev LogicalPlan := Nat

abbrev PhysicalPlan := Nat

abbrev Schema := Nat

abbrev Expression := Nat

/-- A Go `error` value: a base error or one wrapped by `errors.Trace`. -/
inductive GoErr where
  | base (tag : Nat)
  | traced (e : GoErr)
deriving DecidableEq

/-- The `physicalPlanInfo` record returned by `convert2PhysicalPlan`;
the orchestration only reads its `p` field. -/
structure PhysicalPlanInfo where
  p : PhysicalPlan
deriving DecidableEq

/-- The two freshly allocated mutable structures held by a
`planBuilder`: the address of its `colMapper` map and the address of
its `idAllocator`. -/
structure BuilderState where
  colMapper : Nat
  allocator : Nat
deriving DecidableEq

/-- The external collaborators invoked by `Optimize`, as pure functions.
`none` as an error component means the Go call returned a nil error. -/
structure Oracle where
  InferType : Node → Option GoErr
  logicOptimize : Node → Option GoErr
  build : BuilderState → Node → Plan × Option GoErr
  asLogicalPlan : Plan → Option LogicalPlan
  GetSchema : Plan → Schema
  PredicatePushDown : LogicalPlan → List Expression →
    List Expression × LogicalPlan × Option GoErr
  PruneColumnsAndResolveIndices : LogicalPlan → Schema →
    List Expression × Option GoErr
  convert2PhysicalPlan : LogicalPlan → Option Nat →
    PhysicalPlanInfo × PhysicalPlanInfo × Nat × Option GoErr
  PushLimit : PhysicalPlan → Option Nat → Plan
  Refine : Plan → Option GoErr

/-- One collaborator call made during `Optimize`, with its arguments. -/
inductive Call where
  | inferType (n : Node)
  | logicOptimize (n : Node)
  | build (b : BuilderState) (n : Node)
  | predicatePushDown (l : LogicalPlan) (conds : List Expression)
  | pruneColumnsAndResolveIndices (l : LogicalPlan) (s : Schema)
  | convert2PhysicalPlan (l : LogicalPlan) (prop : Option Nat)
  | pushLimit (p : PhysicalPlan) (lim : Option Nat)
  | refine (p : Plan)
deriving DecidableEq

/-- The observable outcome of one `Optimize` call: the returned plan and
error, the ordered trace of collaborator calls made, the builder's
allocations (when the builder was constructed), and the allocation
counter after the call. -/
structure OptResult where
  plan : Option Plan
  err : Option GoErr
  trace : List Call
  builder : Option BuilderState
  heap : Nat
deriving DecidableEq

/-- The new-pipeline phase of `Optimize` (the body of the
`if logic, ok := p.(LogicalPlan); UseNewPlanner && ok` block):
`PredicatePushDown(nil)`, then `PruneColumnsAndResolveIndices` of the
pushed-down plan against `p.GetSchema()`, then `convert2PhysicalPlan(nil)`,
then `PushLimit(nil)` on the chosen physical plan. -/
def newPipeline (o : Oracle) (p : Plan) (logic : LogicalPlan)
    (tr : List Call) (b : BuilderState) (heap : Nat) : OptResult :=
  match (o.PredicatePushDown logic []).2.2 with
  | some e => ⟨none, some e.traced, tr ++ [Call.predicatePushDown logic []], some b, heap⟩
  | none =>
    match (o.PruneColumnsAndResolveIndices (o.PredicatePushDown logic []).2.1
        (o.GetSchema p)).2 with
    | some e =>
      ⟨none, some e.traced,
        tr ++ [Call.predicatePushDown logic [],
          Call.pruneColumnsAndResolveIndices (o.PredicatePushDown logic []).2.1
            (o.GetSchema p)], some b, heap⟩
    | none =>
      match (o.convert2PhysicalPlan (o.PredicatePushDown logic []).2.1 none).2.2.2 with
      | some e =>
        ⟨none, some e.traced,
          tr ++ [Call.predicatePushDown logic [],
            Call.pruneColumnsAndResolveIndices (o.PredicatePushDown logic []).2.1
              (o.GetSchema p),
            Call.convert2PhysicalPlan (o.PredicatePushDown logic []).2.1 none],
          some b, heap⟩
      | none =>
        ⟨some (o.PushLimit
            ((o.convert2PhysicalPlan (o.PredicatePushDown logic []).2.1 none).2.1).p none),
          none,
          tr ++ [Call.predicatePushDown logic [],
            Call.pruneColumnsAndResolveIndices (o.PredicatePushDown logic []).2.1
              (o.GetSchema p),
            Call.convert2PhysicalPlan (o.PredicatePushDown logic []).2.1 none,
            Call.pushLimit
              ((o.convert2PhysicalPlan (o.PredicatePushDown logic []).2.1 none).2.1).p
              none],
          some b, heap⟩

/-- The legacy tail of `Optimize`: `Refine(p)` and return `p` on success. -/
def legacyRefine (o : Oracle) (p : Plan) (tr : List Call) (b : BuilderState)
    (heap : Nat) : OptResult :=
  match o.Refine p with
  | some e => ⟨none, some e.traced, tr ++ [Call.refine p], some b, heap⟩
  | none => ⟨some p, none, tr ++ [Call.refine p], some b, heap⟩

/-- Embedding of `Optimize` from the construction of the `planBuilder`
onwards: the
builder is allocated (two fresh heap cells for `colMapper` and
`allocator`), `builder.build(node)` runs, a non-nil `builder.err` aborts,
and otherwise the branch on `UseNewPlanner && ok` selects the new
pipeline or the legacy `Refine` tail. -/
def optimizeBuild (o : Oracle) (UseNewPlanner : Bool) (node : Node)
    (heap : Nat) (tr : List Call) : OptResult :=
  match (o.build ⟨heap, heap + 1⟩ node).2 with
  | some e =>
    ⟨none, some e.traced, tr ++ [Call.build ⟨heap, heap + 1⟩ node],
      some ⟨heap, heap + 1⟩, heap + 2⟩
  | none =>
    match o.asLogicalPlan (o.build ⟨heap, heap + 1⟩ node).1 with
    | some logic =>
      if UseNewPlanner then
        newPipeline o (o.build ⟨heap, heap + 1⟩ node).1 logic
          (tr ++ [Call.build ⟨heap, heap + 1⟩ node]) ⟨heap, heap + 1⟩ (heap + 2)
      else
        legacyRefine o (o.build ⟨heap, heap + 1⟩ node).1
          (tr ++ [Call.build ⟨heap, heap + 1⟩ node]) ⟨heap, heap + 1⟩ (heap + 2)
    | none =>
      legacyRefine o (o.build ⟨heap, heap + 1⟩ node).1
        (tr ++ [Call.build ⟨heap, heap + 1⟩ node]) ⟨heap, heap + 1⟩ (heap + 2)

/-- Shallow embedding of `Optimize(ctx, node, sb, is)`: re-run type
inference, run `logicOptimize` when the node is not a `SelectStmt` or
`UseNewPlanner` is off, then build and continue in `optimizeBuild`. -/
def Optimize (o : Oracle) (UseNewPlanner : Bool) (node : Node) (heap : Nat) :
    OptResult :=
  match o.InferType node with
  | some e => ⟨none, some e.traced, [Call.inferType node], none, heap⟩
  | none =>
    if !node.isSelectStmt || !UseNewPlanner then
      match o.logicOptimize node with
      | some e =>
        ⟨none, some e.traced, [Call.inferType node, Call.logicOptimize node],
          none, heap⟩
      | none =>
        optimizeBuild o UseNewPlanner node heap
          [Call.inferType node, Call.logicOptimize node]
    else
      optimizeBuild o UseNewPlanner node heap [Call.inferType node]

/-- The error component a collaborator call returns under an oracle. -/
def callErr (o : Oracle) : Call → Option GoErr
  | .inferType n => o.InferType n
  | .logicOptimize n => o.logicOptimize n
  | .build b n => (o.build b n).2
  | .predicatePushDown l conds => (o.PredicatePushDown l conds).2.2
  | .pruneColumnsAndResolveIndices l s => (o.PruneColumnsAndResolveIndices l s).2
  | .convert2PhysicalPlan l prop => (o.convert2PhysicalPlan l prop).2.2.2
  | .pushLimit _ _ => none
  | .refine p => o.Refine p

/-- Whether a call belongs to the new logical/physical pipeline. -/
def Call.isNewPipelineStep : Call → Bool
  | .predicatePushDown _ _ => true
  | .pruneColumnsAndResolveIndices _ _ => true
  | .convert2PhysicalPlan _ _ => true
  | _ => false

/-- Whether a call is the legacy `Refine`. -/
def Call.isRefine : Call → Bool
  | .refine _ => true
  | _ => false

/-- Whether a call is `convert2PhysicalPlan`. -/
def Call.isConvert2PhysicalPlan : Call → Bool
  | .convert2PhysicalPlan _ _ => true
  | _ => false

/-- First-failure shape of an `Optimize` outcome: either it succeeded
with a plan and a nil error, or the last call made failed, its error is
returned wrapped by `errors.Trace`, no plan is returned, and every
earlier call succeeded. -/
def FirstFailure (o : Oracle) (r : OptResult) : Prop :=
  (r.err = none ∧ r.plan.isSome = true) ∨
    (∃ e tr0 c, r.err = some (GoErr.traced e) ∧ r.plan = none ∧
      r.trace = tr0 ++ [c] ∧ callErr o c = some e ∧
      ∀ c' ∈ tr0, callErr o c' = none)

/-- One collaborator call made during `PrepareStmt`. -/
inductive PrepCall where
  | setFlag (n : Node)
  | preprocess (n : Node)
  | validate (n : Node) (inPrepare : Bool)
deriving DecidableEq

/-- The observable outcome of one `PrepareStmt` call. -/
structure PrepResult where
  err : Option GoErr
  trace : List PrepCall
deriving DecidableEq

/-- The external collaborators invoked by `PrepareStmt`.  `ast.SetFlag`
returns nothing, so only `Preprocess` and `Validate` can fail. -/
structure PrepOracle where
  Preprocess : Node → Option GoErr
  Validate : Node → Bool → Option GoErr

/-- Shallow embedding of `PrepareStmt(is, ctx, node)`: `ast.SetFlag`,
then `Preprocess`, then `Validate(node, true)`, returning the first
failure wrapped by `errors.Trace`. -/
def PrepareStmt (o : PrepOracle) (node : Node) : PrepResult :=
  match o.Preprocess node with
  | some e =>
    ⟨some e.traced, [PrepCall.setFlag node, PrepCall.preprocess node]⟩
  | none =>
    match o.Validate node true with
    | some e =>
      ⟨some e.traced,
        [PrepCall.setFlag node, PrepCall.preprocess node,
          PrepCall.validate node true]⟩
    | none =>
      ⟨none,
        [PrepCall.setFlag node, PrepCall.preprocess node,
          PrepCall.validate node true]⟩

/-- Optimizer error codes, from the `const` block of the source. -/
def CodeOneColumn : Nat := 1

def CodeSameColumns : Nat := 2

def CodeMultiWildCard : Nat := 3

def CodeUnsupported : Nat := 4

def CodeInvalidGroupFuncUse : Nat := 5

def CodeIllegalReference : Nat := 6

/-- Modelled from the spec: the engine-specific numeric codes referenced
by `init` live in the repository's `mysql` package, which is not part of
this source file; they are the standard MySQL client-visible error
numbers for operand column count, parse error, invalid group-function
use and illegal reference. -/
def ErrOperandColumns : Nat := 1241

/-- Modelled from the spec: the MySQL parse-error number. -/
def ErrParse : Nat := 1064

/-- Modelled from the spec: the MySQL invalid-group-function number. -/
def ErrInvalidGroupFuncUse : Nat := 1111

/-- Modelled from the spec: the MySQL illegal-reference number. -/
def ErrIllegalReference : Nat := 1247

/-- The `mySQLErrCodes` map built by `init` and installed in
`terror.ErrClassToMySQLCodes[terror.ClassOptimizer]`, as an association
list of (optimizer error code, MySQL error number). -/
def mySQLErrCodes : List (Nat × Nat) :=
  [(CodeOneColumn, ErrOperandColumns),
    (CodeSameColumns, ErrOperandColumns),
    (CodeMultiWildCard, ErrParse),
    (CodeInvalidGroupFuncUse, ErrInvalidGroupFuncUse),
    (CodeIllegalReference, ErrIllegalReference)]

/-- Lookup in the installed error-code table. -/
def lookupMySQLErrCode (c : Nat) : Option Nat :=
  (mySQLErrCodes.find? fun kv => kv.1 == c).map Prod.snd

/-- A concrete all-succeeding oracle used to evaluate the embedding on
closed inputs. -/
def sampleOracle : Oracle where
  InferType := fun _ => none
  logicOptimize := fun _ => none
  build := fun _ n => (n.tag, none)
  asLogicalPlan := fun p => some p
  GetSchema := fun p => p
  PredicatePushDown := fun l conds => (conds, l + 1, none)
  PruneColumnsAndResolveIndices := fun _ _ => ([], none)
  convert2PhysicalPlan := fun l _ => (⟨l⟩, ⟨l + 2⟩, 0, none)
  PushLimit := fun p _ => p + 10
  Refine := fun _ => none

/-- A concrete oracle whose builder output never implements
`LogicalPlan` (the type assertion fails). -/
def scalarOracle : Oracle :=
  { sampleOracle with asLogicalPlan := fun _ => none }

/-- A concrete oracle whose `PredicatePushDown` fails. -/
def failPushDownOracle : Oracle :=
  { sampleOracle with PredicatePushDown := fun _ _ => ([], 0, some (GoErr.base 3)) }

/-- A concrete preparation oracle where both steps succeed. -/
def samplePrepOracle : PrepOracle where
  Preprocess := fun _ => none
  Validate := fun _ _ => none

/-- A concrete preparation oracle whose `Preprocess` fails. -/
def failPreprocessOracle : PrepOracle :=
  { samplePrepOracle with Preprocess := fun _ => some (GoErr.base 9) }

/-- A concrete preparation oracle whose `Validate` fails. -/
def failValidateOracle : PrepOracle :=
  { samplePrepOracle with Validate := fun _ _ => some (GoErr.base 11) }

/-- The trace of `legacyRefine` always appends exactly the `Refine` call. -/
theorem legacyRefine_trace (o : Oracle) (p : Plan) (tr : List Call)
    (b : BuilderState) (heap : Nat) :
    (legacyRefine o p tr b heap).trace = tr ++ [Call.refine p] := by
  unfold legacyRefine
  cases o.Refine p <;> rfl

/-- The tail `legacyRefine` satisfies the first-failure contract when every call
made so far succeeded. -/
theorem legacyRefine_firstFailure (o : Oracle) (p : Plan) (tr : List Call)
    (b : BuilderState) (heap : Nat)
    (hpre : ∀ c ∈ tr, callErr o c = none) :
    FirstFailure o (legacyRefine o p tr b heap) := by
  unfold legacyRefine
  cases hr : o.Refine p with
  | none => exact Or.inl ⟨rfl, rfl⟩
  | some e =>
    exact Or.inr ⟨e, tr, Call.refine p, rfl, rfl, rfl,
      by simpa [callErr] using hr, hpre⟩

/-- The phase `newPipeline` satisfies the first-failure contract when every call
made so far succeeded. -/
theorem newPipeline_firstFailure (o : Oracle) (p : Plan) (logic : LogicalPlan)
    (tr : List Call) (b : BuilderState) (heap : Nat)
    (hpre : ∀ c ∈ tr, callErr o c = none) :
    FirstFailure o (newPipeline o p logic tr b heap) := by
  unfold newPipeline
  cases hppd : (o.PredicatePushDown logic []).2.2 with
  | some e =>
    exact Or.inr ⟨e, tr, Call.predicatePushDown logic [], rfl, rfl, rfl,
      by simpa [callErr] using hppd, hpre⟩
  | none =>
    have hpre1 : ∀ c ∈ tr ++ [Call.predicatePushDown logic []],
        callErr o c = none := by
      intro c hcm
      rcases List.mem_append.1 hcm with h | h
      · exact hpre c h
      · simp only [List.mem_singleton] at h
        subst h
        simpa [callErr] using hppd
    cases hpr : (o.PruneColumnsAndResolveIndices (o.PredicatePushDown logic []).2.1
        (o.GetSchema p)).2 with
    | some e =>
      refine Or.inr ⟨e, tr ++ [Call.predicatePushDown logic []],
        Call.pruneColumnsAndResolveIndices (o.PredicatePushDown logic []).2.1
          (o.GetSchema p), rfl, rfl, by simp, by simpa [callErr] using hpr, hpre1⟩
    | none =>
      have hpre2 : ∀ c ∈ tr ++ [Call.predicatePushDown logic [],
          Call.pruneColumnsAndResolveIndices (o.PredicatePushDown logic []).2.1
            (o.GetSchema p)], callErr o c = none := by
        intro c hcm
        rcases List.mem_append.1 hcm with h | h
        · exact hpre c h
        · rcases List.mem_cons.1 h with h1 | h1
          · subst h1; simpa [callErr] using hppd
          · simp only [List.mem_singleton] at h1
            subst h1
            simpa [callErr] using hpr
      cases hcv : (o.convert2PhysicalPlan (o.PredicatePushDown logic []).2.1
          none).2.2.2 with
      | some e =>
        refine Or.inr ⟨e, tr ++ [Call.predicatePushDown logic [],
          Call.pruneColumnsAndResolveIndices (o.PredicatePushDown logic []).2.1
            (o.GetSchema p)],
          Call.convert2PhysicalPlan (o.PredicatePushDown logic []).2.1 none,
          rfl, rfl, by simp, by simpa [callErr] using hcv, hpre2⟩
      | none => exact Or.inl ⟨rfl, rfl⟩

/-- The tail `optimizeBuild` satisfies the first-failure contract when every call
made so far succeeded. -/
theorem optimizeBuild_firstFailure (o : Oracle) (u : Bool) (node : Node)
    (heap : Nat) (tr : List Call)
    (hpre : ∀ c ∈ tr, callErr o c = none) :
    FirstFailure o (optimizeBuild o u node heap tr) := by
  unfold optimizeBuild
  cases hb : (o.build ⟨heap, heap + 1⟩ node).2 with
  | some e =>
    exact Or.inr ⟨e, tr, Call.build ⟨heap, heap + 1⟩ node, rfl, rfl, rfl,
      by simpa [callErr] using hb, hpre⟩
  | none =>
    have hpre1 : ∀ c ∈ tr ++ [Call.build ⟨heap, heap + 1⟩ node],
        callErr o c = none := by
      intro c hcm
      rcases List.mem_append.1 hcm with h | h
      · exact hpre c h
      · simp only [List.mem_singleton] at h
        subst h
        simpa [callErr] using hb
    cases o.asLogicalPlan (o.build ⟨heap, heap + 1⟩ node).1 with
    | some logic =>
      by_cases hu : u = true
      · subst hu
        simpa using newPipeline_firstFailure o (o.build ⟨heap, heap + 1⟩ node).1
          logic (tr ++ [Call.build ⟨heap, heap + 1⟩ node]) ⟨heap, heap + 1⟩
          (heap + 2) hpre1
      · simp only [Bool.not_eq_true] at hu
        subst hu
        simpa using legacyRefine_firstFailure o (o.build ⟨heap, heap + 1⟩ node).1
          (tr ++ [Call.build ⟨heap, heap + 1⟩ node]) ⟨heap, heap + 1⟩
          (heap + 2) hpre1
    | none =>
      exact legacyRefine_firstFailure o (o.build ⟨heap, heap + 1⟩ node).1
        (tr ++ [Call.build ⟨heap, heap + 1⟩ node]) ⟨heap, heap + 1⟩
        (heap + 2) hpre1

/-- C2: for every input, if any step of `Optimize` fails, `Optimize`
returns a nil plan together with that step's error wrapped by
`errors.Trace`, performing no later step (the failing call is the last
call in the trace, and every earlier call succeeded); no partial plan is
ever returned alongside an error, and on success the error is nil and a
plan is returned. -/
theorem optimize_first_failure_aborts (o : Oracle) (u : Bool) (node : Node)
    (heap : Nat) : FirstFailure o (Optimize o u node heap) := by
  unfold Optimize
  cases hi : o.InferType node with
  | some e =>
    exact Or.inr ⟨e, [], Call.inferType node, rfl, rfl, rfl,
      by simpa [callErr] using hi, by simp⟩
  | none =>
    have hpre0 : ∀ c ∈ [Call.inferType node], callErr o c = none := by
      intro c hcm
      simp only [List.mem_singleton] at hcm
      subst hcm
      simpa [callErr] using hi
    by_cases hc : (!node.isSelectStmt || !u) = true
    · rw [if_pos hc]
      cases hl : o.logicOptimize node with
      | some e =>
        exact Or.inr ⟨e, [Call.inferType node], Call.logicOptimize node, rfl, rfl,
          rfl, by simpa [callErr] using hl, hpre0⟩
      | none =>
        refine optimizeBuild_firstFailure o u node heap _ ?_
        intro c hcm
        rcases List.mem_cons.1 hcm with h | h
        · subst h; simpa [callErr] using hi
        · simp only [List.mem_singleton] at h
          subst h
          simpa [callErr] using hl
    · rw [if_neg hc]
      exact optimizeBuild_firstFailure o u node heap _ hpre0

/-- C1: on the new-pipeline path, `Optimize` applies exactly this
sequence to the built logical plan: `PredicatePushDown` with nil initial
predicates, then `PruneColumnsAndResolveIndices` against the built
plan's own output schema `p.GetSchema()`, then `convert2PhysicalPlan`
with no required physical property, then `PushLimit` on the chosen
physical plan, and returns that result as the final plan (here on a
`SelectStmt` with `UseNewPlanner` on, so the legacy AST pass is
skipped). -/
theorem optimize_new_pipeline_sequence (o : Oracle) (node : Node) (heap : Nat)
    (L : LogicalPlan)
    (hsel : node.isSelectStmt = true)
    (hinfer : o.InferType node = none)
    (hbuild : (o.build ⟨heap, heap + 1⟩ node).2 = none)
    (hlogic : o.asLogicalPlan (o.build ⟨heap, heap + 1⟩ node).1 = some L)
    (hppd : (o.PredicatePushDown L []).2.2 = none)
    (hprune : (o.PruneColumnsAndResolveIndices (o.PredicatePushDown L []).2.1
        (o.GetSchema (o.build ⟨heap, heap + 1⟩ node).1)).2 = none)
    (hconv : (o.convert2PhysicalPlan (o.PredicatePushDown L []).2.1
        none).2.2.2 = none) :
    Optimize o true node heap =
      ⟨some (o.PushLimit
          ((o.convert2PhysicalPlan (o.PredicatePushDown L []).2.1 none).2.1).p
          none),
        none,
        [Call.inferType node, Call.build ⟨heap, heap + 1⟩ node,
          Call.predicatePushDown L [],
          Call.pruneColumnsAndResolveIndices (o.PredicatePushDown L []).2.1
            (o.GetSchema (o.build ⟨heap, heap + 1⟩ node).1),
          Call.convert2PhysicalPlan (o.PredicatePushDown L []).2.1 none,
          Call.pushLimit
            ((o.convert2PhysicalPlan (o.PredicatePushDown L []).2.1 none).2.1).p
            none],
        some ⟨heap, heap + 1⟩, heap + 2⟩ := by
  unfold Optimize
  rw [hinfer, hsel]
  simp only [Bool.not_true, Bool.or_self, Bool.false_or, if_neg]
  unfold optimizeBuild
  rw [hbuild, hlogic]
  simp only [if_pos]
  unfold newPipeline
  rw [hppd, hprune, hconv]
  rfl

/-- Closed instance of the C1 theorem on a concrete oracle and node. -/
theorem optimize_new_pipeline_sequence_witness :
    Optimize sampleOracle true ⟨true, 5⟩ 0 =
      ⟨some 18, none,
        [Call.inferType ⟨true, 5⟩, Call.build ⟨0, 1⟩ ⟨true, 5⟩,
          Call.predicatePushDown 5 [],
          Call.pruneColumnsAndResolveIndices 6 5,
          Call.convert2PhysicalPlan 6 none,
          Call.pushLimit 8 none],
        some ⟨0, 1⟩, 2⟩ :=
  optimize_new_pipeline_sequence sampleOracle ⟨true, 5⟩ 0 5 rfl rfl rfl rfl rfl
    rfl rfl

/-- Branch equation: `legacyRefine` when `Refine` succeeds. -/
theorem legacyRefine_eq_ok (o : Oracle) (p : Plan) (tr : List Call)
    (b : BuilderState) (heap : Nat) (hr : o.Refine p = none) :
    legacyRefine o p tr b heap =
      ⟨some p, none, tr ++ [Call.refine p], some b, heap⟩ := by
  unfold legacyRefine
  rw [hr]

/-- Branch equation: `Optimize` when `InferType` fails. -/
theorem Optimize_eq_inferType_err (o : Oracle) (u : Bool) (node : Node)
    (heap : Nat) (e : GoErr) (hi : o.InferType node = some e) :
    Optimize o u node heap =
      ⟨none, some e.traced, [Call.inferType node], none, heap⟩ := by
  unfold Optimize
  rw [hi]

/-- Branch equation: `Optimize` when the legacy AST pass runs and fails. -/
theorem Optimize_eq_logicOptimize_err (o : Oracle) (u : Bool) (node : Node)
    (heap : Nat) (e : GoErr) (hi : o.InferType node = none)
    (hc : (!node.isSelectStmt || !u) = true)
    (hl : o.logicOptimize node = some e) :
    Optimize o u node heap =
      ⟨none, some e.traced, [Call.inferType node, Call.logicOptimize node],
        none, heap⟩ := by
  unfold Optimize
  rw [hi, if_pos hc, hl]

/-- Branch equation: `Optimize` when the legacy AST pass runs and
succeeds. -/
theorem Optimize_eq_ast_ok (o : Oracle) (u : Bool) (node : Node) (heap : Nat)
    (hi : o.InferType node = none) (hc : (!node.isSelectStmt || !u) = true)
    (hl : o.logicOptimize node = none) :
    Optimize o u node heap =
      optimizeBuild o u node heap
        [Call.inferType node, Call.logicOptimize node] := by
  unfold Optimize
  rw [hi, if_pos hc, hl]

/-- Branch equation: `Optimize` when the legacy AST pass is skipped. -/
theorem Optimize_eq_no_ast (o : Oracle) (u : Bool) (node : Node) (heap : Nat)
    (hi : o.InferType node = none)
    (hc : (!node.isSelectStmt || !u) = false) :
    Optimize o u node heap =
      optimizeBuild o u node heap [Call.inferType node] := by
  unfold Optimize
  rw [hi, if_neg (by simp [hc])]

/-- Branch equation: `optimizeBuild` when `builder.err` is set. -/
theorem optimizeBuild_eq_build_err (o : Oracle) (u : Bool) (node : Node)
    (heap : Nat) (tr : List Call) (e : GoErr)
    (hb : (o.build ⟨heap, heap + 1⟩ node).2 = some e) :
    optimizeBuild o u node heap tr =
      ⟨none, some e.traced, tr ++ [Call.build ⟨heap, heap + 1⟩ node],
        some ⟨heap, heap + 1⟩, heap + 2⟩ := by
  unfold optimizeBuild
  rw [hb]

/-- Branch equation: `optimizeBuild` enters the new pipeline when
`UseNewPlanner` is on and the built plan implements `LogicalPlan`. -/
theorem optimizeBuild_eq_newPipeline (o : Oracle) (node : Node) (heap : Nat)
    (tr : List Call) (logic : LogicalPlan)
    (hb : (o.build ⟨heap, heap + 1⟩ node).2 = none)
    (hL : o.asLogicalPlan (o.build ⟨heap, heap + 1⟩ node).1 = some logic) :
    optimizeBuild o true node heap tr =
      newPipeline o (o.build ⟨heap, heap + 1⟩ node).1 logic
        (tr ++ [Call.build ⟨heap, heap + 1⟩ node]) ⟨heap, heap + 1⟩
        (heap + 2) := by
  unfold optimizeBuild
  rw [hb, hL]
  rfl

/-- Branch equation: `optimizeBuild` with `UseNewPlanner` off always
falls through to `legacyRefine`. -/
theorem optimizeBuild_eq_legacy_false (o : Oracle) (node : Node) (heap : Nat)
    (tr : List Call) (hb : (o.build ⟨heap, heap + 1⟩ node).2 = none) :
    optimizeBuild o false node heap tr =
      legacyRefine o (o.build ⟨heap, heap + 1⟩ node).1
        (tr ++ [Call.build ⟨heap, heap + 1⟩ node]) ⟨heap, heap + 1⟩
        (heap + 2) := by
  unfold optimizeBuild
  rw [hb]
  cases o.asLogicalPlan (o.build ⟨heap, heap + 1⟩ node).1 <;> rfl

/-- Branch equation: `optimizeBuild` falls through to `legacyRefine`
when the built plan does not implement `LogicalPlan`. -/
theorem optimizeBuild_eq_legacy_notLogical (o : Oracle) (u : Bool)
    (node : Node) (heap : Nat) (tr : List Call)
    (hb : (o.build ⟨heap, heap + 1⟩ node).2 = none)
    (hL : o.asLogicalPlan (o.build ⟨heap, heap + 1⟩ node).1 = none) :
    optimizeBuild o u node heap tr =
      legacyRefine o (o.build ⟨heap, heap + 1⟩ node).1
        (tr ++ [Call.build ⟨heap, heap + 1⟩ node]) ⟨heap, heap + 1⟩
        (heap + 2) := by
  unfold optimizeBuild
  rw [hb, hL]

/-- Numeric classifier for call constructors, used to state trace-shape
facts. -/
def Call.kind : Call → Nat
  | .inferType _ => 0
  | .logicOptimize _ => 1
  | .build _ _ => 2
  | .predicatePushDown _ _ => 3
  | .pruneColumnsAndResolveIndices _ _ => 4
  | .convert2PhysicalPlan _ _ => 5
  | .pushLimit _ _ => 6
  | .refine _ => 7

/-- The trace of `newPipeline` extends the incoming trace with the
`PredicatePushDown` call followed only by later pipeline calls. -/
theorem newPipeline_trace_shape (o : Oracle) (p : Plan) (logic : LogicalPlan)
    (tr : List Call) (b : BuilderState) (heap : Nat) :
    ∃ suffix, (newPipeline o p logic tr b heap).trace =
      tr ++ Call.predicatePushDown logic [] :: suffix ∧
      ∀ c ∈ suffix, 4 ≤ c.kind ∧ c.kind ≤ 6 := by
  unfold newPipeline
  cases (o.PredicatePushDown logic []).2.2 with
  | some e => exact ⟨[], rfl, by simp⟩
  | none =>
    cases (o.PruneColumnsAndResolveIndices (o.PredicatePushDown logic []).2.1
        (o.GetSchema p)).2 with
    | some e =>
      refine ⟨[Call.pruneColumnsAndResolveIndices (o.PredicatePushDown logic []).2.1
        (o.GetSchema p)], rfl, ?_⟩
      intro c hc
      simp only [List.mem_singleton] at hc
      subst hc
      simp [Call.kind]
    | none =>
      cases (o.convert2PhysicalPlan (o.PredicatePushDown logic []).2.1
          none).2.2.2 with
      | some e =>
        refine ⟨[Call.pruneColumnsAndResolveIndices (o.PredicatePushDown logic []).2.1
          (o.GetSchema p),
          Call.convert2PhysicalPlan (o.PredicatePushDown logic []).2.1 none],
          rfl, ?_⟩
        intro c hc
        rcases List.mem_cons.1 hc with h | h
        · subst h; simp [Call.kind]
        · simp only [List.mem_singleton] at h
          subst h
          simp [Call.kind]
      | none =>
        refine ⟨[Call.pruneColumnsAndResolveIndices (o.PredicatePushDown logic []).2.1
          (o.GetSchema p),
          Call.convert2PhysicalPlan (o.PredicatePushDown logic []).2.1 none,
          Call.pushLimit
            ((o.convert2PhysicalPlan (o.PredicatePushDown logic []).2.1 none).2.1).p
            none], rfl, ?_⟩
        intro c hc
        rcases List.mem_cons.1 hc with h | h
        · subst h; simp [Call.kind]
        · rcases List.mem_cons.1 h with h1 | h1
          · subst h1; simp [Call.kind]
          · simp only [List.mem_singleton] at h1
            subst h1
            simp [Call.kind]

/-- The trace of `optimizeBuild` extends the incoming trace only with
the `build` call and calls of the two post-build tails. -/
theorem optimizeBuild_trace_shape (o : Oracle) (u : Bool) (node : Node)
    (heap : Nat) (tr : List Call) :
    ∃ suffix, (optimizeBuild o u node heap tr).trace = tr ++ suffix ∧
      ∀ c ∈ suffix, 2 ≤ c.kind := by
  cases hb : (o.build ⟨heap, heap + 1⟩ node).2 with
  | some e =>
    rw [optimizeBuild_eq_build_err o u node heap tr e hb]
    refine ⟨[Call.build ⟨heap, heap + 1⟩ node], rfl, ?_⟩
    intro c hc
    simp only [List.mem_singleton] at hc
    subst hc
    simp [Call.kind]
  | none =>
    have hlegacy : ∀ p : Plan,
        ∃ suffix, (legacyRefine o p (tr ++ [Call.build ⟨heap, heap + 1⟩ node])
            ⟨heap, heap + 1⟩ (heap + 2)).trace = tr ++ suffix ∧
          ∀ c ∈ suffix, 2 ≤ c.kind := by
      intro p
      refine ⟨[Call.build ⟨heap, heap + 1⟩ node, Call.refine p], ?_, ?_⟩
      · rw [legacyRefine_trace]
        simp
      · intro c hc
        rcases List.mem_cons.1 hc with h | h
        · subst h; simp [Call.kind]
        · simp only [List.mem_singleton] at h
          subst h
          simp [Call.kind]
    cases hL : o.asLogicalPlan (o.build ⟨heap, heap + 1⟩ node).1 with
    | some logic =>
      cases u with
      | true =>
        rw [optimizeBuild_eq_newPipeline o node heap tr logic hb hL]
        obtain ⟨sfx, hsfx, hk⟩ := newPipeline_trace_shape o
          (o.build ⟨heap, heap + 1⟩ node).1 logic
          (tr ++ [Call.build ⟨heap, heap + 1⟩ node]) ⟨heap, heap + 1⟩ (heap + 2)
        refine ⟨[Call.build ⟨heap, heap + 1⟩ node] ++
          Call.predicatePushDown logic [] :: sfx, by rw [hsfx]; simp, ?_⟩
        intro c hc
        rcases List.mem_append.1 hc with h | h
        · simp only [List.mem_singleton] at h
          subst h
          simp [Call.kind]
        · rcases List.mem_cons.1 h with h1 | h1
          · subst h1; simp [Call.kind]
          · exact le_trans (by norm_num) (hk c h1).1
      | false =>
        rw [optimizeBuild_eq_legacy_false o node heap tr hb]
        exact hlegacy _
    | none =>
      rw [optimizeBuild_eq_legacy_notLogical o u node heap tr hb hL]
      exact hlegacy _

/-- C3: with `UseNewPlanner` off, `Optimize` never invokes
`PredicatePushDown`, `PruneColumnsAndResolveIndices` or
`convert2PhysicalPlan`; it applies the legacy `Refine` to the built plan
and returns that plan on success. -/
theorem optimize_legacy_no_new_pipeline (o : Oracle) (node : Node) (heap : Nat) :
    (∀ c ∈ (Optimize o false node heap).trace, c.isNewPipelineStep = false) ∧
    (o.InferType node = none → o.logicOptimize node = none →
      (o.build ⟨heap, heap + 1⟩ node).2 = none →
      o.Refine (o.build ⟨heap, heap + 1⟩ node).1 = none →
      (Optimize o false node heap).plan =
          some (o.build ⟨heap, heap + 1⟩ node).1 ∧
        Call.refine (o.build ⟨heap, heap + 1⟩ node).1 ∈
          (Optimize o false node heap).trace) := by
  have hcond : (!node.isSelectStmt || !false) = true := by simp
  constructor
  · intro c hc
    cases hi : o.InferType node with
    | some e =>
      rw [Optimize_eq_inferType_err o false node heap e hi] at hc
      simp only [List.mem_singleton] at hc
      subst hc
      rfl
    | none =>
      cases hl : o.logicOptimize node with
      | some e =>
        rw [Optimize_eq_logicOptimize_err o false node heap e hi hcond hl] at hc
        rcases List.mem_cons.1 hc with h | h
        · subst h; rfl
        · simp only [List.mem_singleton] at h
          subst h
          rfl
      | none =>
        rw [Optimize_eq_ast_ok o false node heap hi hcond hl] at hc
        cases hb : (o.build ⟨heap, heap + 1⟩ node).2 with
        | some e =>
          rw [optimizeBuild_eq_build_err o false node heap _ e hb] at hc
          rcases List.mem_append.1 hc with h | h
          · rcases List.mem_cons.1 h with h1 | h1
            · subst h1; rfl
            · simp only [List.mem_singleton] at h1
              subst h1
              rfl
          · simp only [List.mem_singleton] at h
            subst h
            rfl
        | none =>
          rw [optimizeBuild_eq_legacy_false o node heap _ hb,
            legacyRefine_trace] at hc
          rcases List.mem_append.1 hc with h | h
          · rcases List.mem_append.1 h with h1 | h1
            · rcases List.mem_cons.1 h1 with h2 | h2
              · subst h2; rfl
              · simp only [List.mem_singleton] at h2
                subst h2
                rfl
            · simp only [List.mem_singleton] at h1
              subst h1
              rfl
          · simp only [List.mem_singleton] at h
            subst h
            rfl
  · intro hi hl hb hr
    rw [Optimize_eq_ast_ok o false node heap hi hcond hl,
      optimizeBuild_eq_legacy_false o node heap _ hb,
      legacyRefine_eq_ok o _ _ _ _ hr]
    exact ⟨rfl, by simp⟩

/-- Closed instance of the C3 theorem on a concrete oracle and node. -/
theorem optimize_legacy_no_new_pipeline_witness :
    (Call.inferType ⟨true, 3⟩ : Call).isNewPipelineStep = false ∧
      ((Optimize sampleOracle false ⟨true, 3⟩ 0).plan = some 3 ∧
        Call.refine 3 ∈ (Optimize sampleOracle false ⟨true, 3⟩ 0).trace) :=
  ⟨(optimize_legacy_no_new_pipeline sampleOracle ⟨true, 3⟩ 0).1
      (Call.inferType ⟨true, 3⟩) (by decide),
    (optimize_legacy_no_new_pipeline sampleOracle ⟨true, 3⟩ 0).2 rfl rfl rfl rfl⟩

/-- C4: given type inference succeeded, `Optimize` runs the legacy
AST-level pass `logicOptimize` if and only if the statement is not a
`SelectStmt` or `UseNewPlanner` is off, and when it runs it is the
second call made, directly after type inference and before any plan is
built. -/
theorem optimize_logicOptimize_condition (o : Oracle) (u : Bool) (node : Node)
    (heap : Nat) (hinfer : o.InferType node = none) :
    ((Call.logicOptimize node ∈ (Optimize o u node heap).trace) ↔
      (!node.isSelectStmt || !u) = true) ∧
    ((!node.isSelectStmt || !u) = true →
      ∃ rest, (Optimize o u node heap).trace =
        Call.inferType node :: Call.logicOptimize node :: rest) := by
  by_cases hc : (!node.isSelectStmt || !u) = true
  · have hshape : ∃ rest, (Optimize o u node heap).trace =
        Call.inferType node :: Call.logicOptimize node :: rest := by
      cases hl : o.logicOptimize node with
      | some e =>
        exact ⟨[], by rw [Optimize_eq_logicOptimize_err o u node heap e hinfer hc hl]⟩
      | none =>
        obtain ⟨sfx, hsfx, _⟩ := optimizeBuild_trace_shape o u node heap
          [Call.inferType node, Call.logicOptimize node]
        exact ⟨sfx, by rw [Optimize_eq_ast_ok o u node heap hinfer hc hl]; exact hsfx⟩
    obtain ⟨rest, hrest⟩ := hshape
    refine ⟨?_, fun _ => ⟨rest, hrest⟩⟩
    rw [hrest]
    simp [hc]
  · have hcf : (!node.isSelectStmt || !u) = false := by
      simpa using hc
    have hnot : Call.logicOptimize node ∉ (Optimize o u node heap).trace := by
      rw [Optimize_eq_no_ast o u node heap hinfer hcf]
      obtain ⟨sfx, hsfx, hk⟩ := optimizeBuild_trace_shape o u node heap
        [Call.inferType node]
      rw [hsfx]
      intro hmem
      rcases List.mem_append.1 hmem with h | h
      · simp at h
      · have := hk _ h
        simp [Call.kind] at this
    exact ⟨by simp [hnot, hc], fun h => absurd h hc⟩

/-- Closed instance of the C4 theorem on a concrete oracle and a
non-SELECT node with the new planner on. -/
theorem optimize_logicOptimize_condition_witness :
    Call.logicOptimize ⟨false, 4⟩ ∈ (Optimize sampleOracle true ⟨false, 4⟩ 0).trace :=
  ((optimize_logicOptimize_condition sampleOracle true ⟨false, 4⟩ 0 rfl).1).2 rfl

/-- Calls of kind at most six are not `Refine` calls. -/
theorem not_refine_of_kind_le (c : Call) (h : c.kind ≤ 6) :
    c.isRefine = false := by
  cases c <;> simp_all [Call.kind, Call.isRefine]

/-- Appending a non-`Refine` call preserves refine-freeness. -/
theorem newPipeline_any_refine (o : Oracle) (p : Plan) (logic : LogicalPlan)
    (tr : List Call) (b : BuilderState) (heap : Nat)
    (h : tr.any Call.isRefine = false) :
    (newPipeline o p logic tr b heap).trace.any Call.isRefine = false := by
  obtain ⟨sfx, hsfx, hk⟩ := newPipeline_trace_shape o p logic tr b heap
  rw [hsfx, List.any_append, h, Bool.false_or, List.any_cons]
  rw [show Call.isRefine (Call.predicatePushDown logic []) = false from rfl,
    Bool.false_or]
  rw [List.any_eq_false]
  intro c hc
  simp [not_refine_of_kind_le c (hk c hc).2]

/-- The tail `legacyRefine` preserves convert-freeness of the trace. -/
theorem legacyRefine_any_convert (o : Oracle) (p : Plan) (tr : List Call)
    (b : BuilderState) (heap : Nat)
    (h : tr.any Call.isConvert2PhysicalPlan = false) :
    (legacyRefine o p tr b heap).trace.any Call.isConvert2PhysicalPlan = false := by
  rw [legacyRefine_trace, List.any_append, h, Bool.false_or]
  rfl

/-- The tail `optimizeBuild` never records both a `Refine` call and a
`convert2PhysicalPlan` call. -/
theorem optimizeBuild_refine_convert (o : Oracle) (u : Bool) (node : Node)
    (heap : Nat) (tr : List Call)
    (h1 : tr.any Call.isRefine = false)
    (h2 : tr.any Call.isConvert2PhysicalPlan = false) :
    (((optimizeBuild o u node heap tr).trace.any Call.isRefine) &&
      ((optimizeBuild o u node heap tr).trace.any
        Call.isConvert2PhysicalPlan)) = false := by
  have hb1 : (tr ++ [Call.build ⟨heap, heap + 1⟩ node]).any Call.isRefine = false := by
    rw [List.any_append, h1, Bool.false_or]
    rfl
  have hb2 : (tr ++ [Call.build ⟨heap, heap + 1⟩ node]).any
      Call.isConvert2PhysicalPlan = false := by
    rw [List.any_append, h2, Bool.false_or]
    rfl
  cases hb : (o.build ⟨heap, heap + 1⟩ node).2 with
  | some e =>
    rw [optimizeBuild_eq_build_err o u node heap tr e hb]
    show ((tr ++ [Call.build ⟨heap, heap + 1⟩ node]).any Call.isRefine &&
      (tr ++ [Call.build ⟨heap, heap + 1⟩ node]).any
        Call.isConvert2PhysicalPlan) = false
    rw [hb1, Bool.false_and]
  | none =>
    cases hL : o.asLogicalPlan (o.build ⟨heap, heap + 1⟩ node).1 with
    | some logic =>
      cases u with
      | true =>
        rw [optimizeBuild_eq_newPipeline o node heap tr logic hb hL]
        rw [newPipeline_any_refine o _ logic _ _ _ hb1, Bool.false_and]
      | false =>
        rw [optimizeBuild_eq_legacy_false o node heap tr hb]
        rw [legacyRefine_any_convert o _ _ _ _ hb2, Bool.and_false]
    | none =>
      rw [optimizeBuild_eq_legacy_notLogical o u node heap tr hb hL]
      rw [legacyRefine_any_convert o _ _ _ _ hb2, Bool.and_false]

/-- C5: within a single `Optimize` call, the legacy `Refine` and the new
physical enumerator `convert2PhysicalPlan` are never both invoked: no
trace of any run contains both a `Refine` call and a
`convert2PhysicalPlan` call. -/
theorem optimize_refine_convert_mutually_exclusive (o : Oracle) (u : Bool)
    (node : Node) (heap : Nat) :
    (((Optimize o u node heap).trace.any Call.isRefine) &&
      ((Optimize o u node heap).trace.any Call.isConvert2PhysicalPlan)) = false := by
  cases hi : o.InferType node with
  | some e =>
    rw [Optimize_eq_inferType_err o u node heap e hi]
    rfl
  | none =>
    by_cases hc : (!node.isSelectStmt || !u) = true
    · cases hl : o.logicOptimize node with
      | some e =>
        rw [Optimize_eq_logicOptimize_err o u node heap e hi hc hl]
        rfl
      | none =>
        rw [Optimize_eq_ast_ok o u node heap hi hc hl]
        exact optimizeBuild_refine_convert o u node heap _ rfl rfl
    · have hcf : (!node.isSelectStmt || !u) = false := by simpa using hc
      rw [Optimize_eq_no_ast o u node heap hi hcf]
      exact optimizeBuild_refine_convert o u node heap _ rfl rfl

/-- The tail `legacyRefine` reports the builder it was given and leaves the
allocation counter alone. -/
theorem legacyRefine_builder (o : Oracle) (p : Plan) (tr : List Call)
    (b : BuilderState) (heap : Nat) :
    (legacyRefine o p tr b heap).builder = some b ∧
      (legacyRefine o p tr b heap).heap = heap := by
  unfold legacyRefine
  cases o.Refine p with
  | some e => exact ⟨rfl, rfl⟩
  | none => exact ⟨rfl, rfl⟩

/-- The phase `newPipeline` reports the builder it was given and leaves the
allocation counter alone. -/
theorem newPipeline_builder (o : Oracle) (p : Plan) (logic : LogicalPlan)
    (tr : List Call) (b : BuilderState) (heap : Nat) :
    (newPipeline o p logic tr b heap).builder = some b ∧
      (newPipeline o p logic tr b heap).heap = heap := by
  unfold newPipeline
  cases (o.PredicatePushDown logic []).2.2 with
  | some e => exact ⟨rfl, rfl⟩
  | none =>
    cases (o.PruneColumnsAndResolveIndices (o.PredicatePushDown logic []).2.1
        (o.GetSchema p)).2 with
    | some e => exact ⟨rfl, rfl⟩
    | none =>
      cases (o.convert2PhysicalPlan (o.PredicatePushDown logic []).2.1
          none).2.2.2 with
      | some e => exact ⟨rfl, rfl⟩
      | none => exact ⟨rfl, rfl⟩

/-- The tail `optimizeBuild` always allocates the builder's two cells at the
current counter and advances it by two. -/
theorem optimizeBuild_builder (o : Oracle) (u : Bool) (node : Node)
    (heap : Nat) (tr : List Call) :
    (optimizeBuild o u node heap tr).builder = some ⟨heap, heap + 1⟩ ∧
      (optimizeBuild o u node heap tr).heap = heap + 2 := by
  cases hb : (o.build ⟨heap, heap + 1⟩ node).2 with
  | some e =>
    rw [optimizeBuild_eq_build_err o u node heap tr e hb]
    exact ⟨rfl, rfl⟩
  | none =>
    cases hL : o.asLogicalPlan (o.build ⟨heap, heap + 1⟩ node).1 with
    | some logic =>
      cases u with
      | true =>
        rw [optimizeBuild_eq_newPipeline o node heap tr logic hb hL]
        exact newPipeline_builder o _ logic _ _ _
      | false =>
        rw [optimizeBuild_eq_legacy_false o node heap tr hb]
        exact legacyRefine_builder o _ _ _ _
    | none =>
      rw [optimizeBuild_eq_legacy_notLogical o u node heap tr hb hL]
      exact legacyRefine_builder o _ _ _ _

/-- Each `Optimize` run either fails before constructing the builder
(counter untouched) or allocates the builder's two fresh cells at the
current counter and advances it past them. -/
theorem optimize_builder_shape (o : Oracle) (u : Bool) (node : Node)
    (heap : Nat) :
    ((Optimize o u node heap).builder = none ∧
      (Optimize o u node heap).heap = heap) ∨
    ((Optimize o u node heap).builder = some ⟨heap, heap + 1⟩ ∧
      (Optimize o u node heap).heap = heap + 2) := by
  cases hi : o.InferType node with
  | some e =>
    rw [Optimize_eq_inferType_err o u node heap e hi]
    exact Or.inl ⟨rfl, rfl⟩
  | none =>
    by_cases hc : (!node.isSelectStmt || !u) = true
    · cases hl : o.logicOptimize node with
      | some e =>
        rw [Optimize_eq_logicOptimize_err o u node heap e hi hc hl]
        exact Or.inl ⟨rfl, rfl⟩
      | none =>
        rw [Optimize_eq_ast_ok o u node heap hi hc hl]
        exact Or.inr (optimizeBuild_builder o u node heap _)
    · have hcf : (!node.isSelectStmt || !u) = false := by simpa using hc
      rw [Optimize_eq_no_ast o u node heap hi hcf]
      exact Or.inr (optimizeBuild_builder o u node heap _)

/-- C7: every `Optimize` call that constructs a plan builder gives it a
newly allocated `colMapper` and a newly allocated `idAllocator`: the two
cells are distinct, neither existed before the call (both are at or
above the incoming allocation counter), and a subsequent `Optimize`
call, of any statement under any oracle, allocates cells disjoint from
them. -/
theorem optimize_fresh_builder_state (o1 o2 : Oracle) (u1 u2 : Bool)
    (n1 n2 : Node) (heap : Nat) :
    (∀ b, (Optimize o1 u1 n1 heap).builder = some b →
      b.colMapper ≠ b.allocator ∧ heap ≤ b.colMapper ∧ heap ≤ b.allocator) ∧
    (∀ b1 b2, (Optimize o1 u1 n1 heap).builder = some b1 →
      (Optimize o2 u2 n2 (Optimize o1 u1 n1 heap).heap).builder = some b2 →
      b1.colMapper ≠ b2.colMapper ∧ b1.colMapper ≠ b2.allocator ∧
        b1.allocator ≠ b2.colMapper ∧ b1.allocator ≠ b2.allocator) := by
  rcases optimize_builder_shape o1 u1 n1 heap with ⟨hb1, hh1⟩ | ⟨hb1, hh1⟩
  · constructor
    · intro b hb
      rw [hb1] at hb
      cases hb
    · intro b1 b2 hb _
      rw [hb1] at hb
      cases hb
  · constructor
    · intro b hb
      rw [hb1] at hb
      injection hb with hbe
      subst hbe
      refine ⟨by simp, le_refl heap, Nat.le_succ heap⟩
    · intro b1 b2 hb hb2m
      rw [hb1] at hb
      injection hb with hbe
      subst hbe
      rw [hh1] at hb2m
      rcases optimize_builder_shape o2 u2 n2 (heap + 2) with ⟨hb2, _⟩ | ⟨hb2, _⟩
      · rw [hb2] at hb2m
        cases hb2m
      · rw [hb2] at hb2m
        injection hb2m with hbe2
        subst hbe2
        refine ⟨by simp, ?_, ?_, ?_⟩
        · show heap ≠ heap + 2 + 1
          omega
        · show heap + 1 ≠ heap + 2
          omega
        · show heap + 1 ≠ heap + 2 + 1
          omega

/-- Closed instance of the C7 theorem: two successive calls on a
concrete oracle yield disjoint fresh builder cells. -/
theorem optimize_fresh_builder_state_witness :
    ((0 : Nat) ≠ 1 ∧ 0 ≤ 0 ∧ 0 ≤ 1) ∧
      ((0 : Nat) ≠ 2 ∧ (0 : Nat) ≠ 3 ∧ (1 : Nat) ≠ 2 ∧ (1 : Nat) ≠ 3) :=
  ⟨(optimize_fresh_builder_state sampleOracle sampleOracle true true
      ⟨true, 5⟩ ⟨true, 7⟩ 0).1 ⟨0, 1⟩ rfl,
    (optimize_fresh_builder_state sampleOracle sampleOracle true true
      ⟨true, 5⟩ ⟨true, 7⟩ 0).2 ⟨0, 1⟩ ⟨2, 3⟩ rfl rfl⟩

/-- The tail `legacyRefine` never records a `PredicatePushDown` call. -/
theorem legacyRefine_no_ppd (o : Oracle) (p : Plan) (tr : List Call)
    (b : BuilderState) (heap : Nat) (htr : ∀ c ∈ tr, c.kind ≤ 2) :
    ¬∃ l conds, Call.predicatePushDown l conds ∈
      (legacyRefine o p tr b heap).trace := by
  rintro ⟨l, conds, hm⟩
  rw [legacyRefine_trace] at hm
  rcases List.mem_append.1 hm with h | h
  · have := htr _ h
    simp [Call.kind] at this
  · simp at h

/-- The tail `legacyRefine` always records its `Refine` call. -/
theorem legacyRefine_has_refine (o : Oracle) (p : Plan) (tr : List Call)
    (b : BuilderState) (heap : Nat) :
    Call.refine p ∈ (legacyRefine o p tr b heap).trace := by
  rw [legacyRefine_trace]
  simp

/-- In `optimizeBuild`, the new-pipeline phase runs exactly when
`UseNewPlanner` is on and the built plan implements `LogicalPlan`; the
legacy `Refine` runs exactly otherwise; and every call beyond the
incoming trace is the `build` call or later. -/
theorem optimizeBuild_pipeline_iff (o : Oracle) (u : Bool) (node : Node)
    (heap : Nat) (tr : List Call)
    (hbuild : (o.build ⟨heap, heap + 1⟩ node).2 = none)
    (htr : ∀ c ∈ tr, c.kind ≤ 1) :
    ((∃ l conds, Call.predicatePushDown l conds ∈
        (optimizeBuild o u node heap tr).trace) ↔
      (u = true ∧
        (o.asLogicalPlan (o.build ⟨heap, heap + 1⟩ node).1).isSome = true)) ∧
    ((∃ p, Call.refine p ∈ (optimizeBuild o u node heap tr).trace) ↔
      ¬(u = true ∧
        (o.asLogicalPlan (o.build ⟨heap, heap + 1⟩ node).1).isSome = true)) ∧
    (∀ c ∈ (optimizeBuild o u node heap tr).trace, c ∈ tr ∨ 2 ≤ c.kind) := by
  have htr' : ∀ c ∈ tr ++ [Call.build ⟨heap, heap + 1⟩ node], c.kind ≤ 2 := by
    intro c hc
    rcases List.mem_append.1 hc with h | h
    · exact le_trans (htr c h) (by norm_num)
    · simp only [List.mem_singleton] at h
      subst h
      simp [Call.kind]
  have hmem' : ∀ c ∈ tr ++ [Call.build ⟨heap, heap + 1⟩ node],
      c ∈ tr ∨ 2 ≤ c.kind := by
    intro c hc
    rcases List.mem_append.1 hc with h | h
    · exact Or.inl h
    · simp only [List.mem_singleton] at h
      subst h
      exact Or.inr (by simp [Call.kind])
  cases hL : o.asLogicalPlan (o.build ⟨heap, heap + 1⟩ node).1 with
  | some logic =>
    cases u with
    | true =>
      rw [optimizeBuild_eq_newPipeline o node heap tr logic hbuild hL]
      obtain ⟨sfx, hsfx, hk⟩ := newPipeline_trace_shape o
        (o.build ⟨heap, heap + 1⟩ node).1 logic
        (tr ++ [Call.build ⟨heap, heap + 1⟩ node]) ⟨heap, heap + 1⟩ (heap + 2)
      rw [hsfx]
      refine ⟨?_, ?_, ?_⟩
      · constructor
        · intro _
          exact ⟨rfl, rfl⟩
        · intro _
          exact ⟨logic, [], by simp⟩
      · constructor
        · rintro ⟨p, hp⟩
          rcases List.mem_append.1 hp with h | h
          · have := htr' _ h
            simp [Call.kind] at this
          · rcases List.mem_cons.1 h with h1 | h1
            · simp at h1
            · have := (hk _ h1).2
              simp [Call.kind] at this
        · intro hcon
          exact absurd ⟨rfl, rfl⟩ hcon
      · intro c hc
        rcases List.mem_append.1 hc with h | h
        · exact hmem' _ h
        · rcases List.mem_cons.1 h with h1 | h1
          · subst h1
            exact Or.inr (by simp [Call.kind])
          · exact Or.inr (le_trans (by norm_num) (hk _ h1).1)
    | false =>
      rw [optimizeBuild_eq_legacy_false o node heap tr hbuild]
      refine ⟨?_, ?_, ?_⟩
      · constructor
        · intro hex
          exact absurd hex (legacyRefine_no_ppd o _ _ _ _ htr')
        · rintro ⟨hu, _⟩
          cases hu
      · constructor
        · rintro _ ⟨hu, _⟩
          cases hu
        · intro _
          exact ⟨_, legacyRefine_has_refine o _ _ _ _⟩
      · intro c hc
        rw [legacyRefine_trace] at hc
        rcases List.mem_append.1 hc with h | h
        · exact hmem' _ h
        · simp only [List.mem_singleton] at h
          subst h
          exact Or.inr (by simp [Call.kind])
  | none =>
    rw [optimizeBuild_eq_legacy_notLogical o u node heap tr hbuild hL]
    refine ⟨?_, ?_, ?_⟩
    · constructor
      · intro hex
        exact absurd hex (legacyRefine_no_ppd o _ _ _ _ htr')
      · rintro ⟨_, hs⟩
        simp at hs
    · constructor
      · rintro _ ⟨_, hs⟩
        simp at hs
      · intro _
        exact ⟨_, legacyRefine_has_refine o _ _ _ _⟩
    · intro c hc
      rw [legacyRefine_trace] at hc
      rcases List.mem_append.1 hc with h | h
      · exact hmem' _ h
      · simp only [List.mem_singleton] at h
        subst h
        exact Or.inr (by simp [Call.kind])

/-- C8: given the steps before the branch succeed, the new-pipeline
phase runs if and only if `UseNewPlanner` is true and the plan returned
by the builder implements `LogicalPlan` (a dynamic-type test, not a
statement-kind test); the legacy `Refine` runs exactly otherwise; and
`logicOptimize` runs if and only if the statement is not a `SelectStmt`
or `UseNewPlanner` is false.  Consequently a non-SELECT statement whose
built plan is logical gets both `logicOptimize` and the new pipeline
with no `Refine`, while a SELECT statement whose built plan is not
logical gets `Refine` without `logicOptimize`. -/
theorem optimize_branch_on_built_plan_type (o : Oracle) (u : Bool)
    (node : Node) (heap : Nat)
    (hinfer : o.InferType node = none)
    (hlo : o.logicOptimize node = none)
    (hbuild : (o.build ⟨heap, heap + 1⟩ node).2 = none) :
    ((∃ l conds, Call.predicatePushDown l conds ∈
        (Optimize o u node heap).trace) ↔
      (u = true ∧
        (o.asLogicalPlan (o.build ⟨heap, heap + 1⟩ node).1).isSome = true)) ∧
    ((∃ p, Call.refine p ∈ (Optimize o u node heap).trace) ↔
      ¬(u = true ∧
        (o.asLogicalPlan (o.build ⟨heap, heap + 1⟩ node).1).isSome = true)) ∧
    ((Call.logicOptimize node ∈ (Optimize o u node heap).trace) ↔
      (!node.isSelectStmt || !u) = true) := by
  by_cases hc : (!node.isSelectStmt || !u) = true
  · rw [Optimize_eq_ast_ok o u node heap hinfer hc hlo]
    have hkinds : ∀ c ∈ [Call.inferType node, Call.logicOptimize node],
        c.kind ≤ 1 := by
      intro c hc2
      rcases List.mem_cons.1 hc2 with h | h
      · subst h
        simp [Call.kind]
      · simp only [List.mem_singleton] at h
        subst h
        simp [Call.kind]
    obtain ⟨h1, h2, h3⟩ := optimizeBuild_pipeline_iff o u node heap
      [Call.inferType node, Call.logicOptimize node] hbuild hkinds
    refine ⟨h1, h2, ?_⟩
    constructor
    · intro _
      exact hc
    · intro _
      obtain ⟨sfx, hsfx, _⟩ := optimizeBuild_trace_shape o u node heap
        [Call.inferType node, Call.logicOptimize node]
      rw [hsfx]
      simp
  · have hcf : (!node.isSelectStmt || !u) = false := by simpa using hc
    rw [Optimize_eq_no_ast o u node heap hinfer hcf]
    have hkinds : ∀ c ∈ [Call.inferType node], c.kind ≤ 1 := by
      intro c hc2
      simp only [List.mem_singleton] at hc2
      subst hc2
      simp [Call.kind]
    obtain ⟨h1, h2, h3⟩ := optimizeBuild_pipeline_iff o u node heap
      [Call.inferType node] hbuild hkinds
    refine ⟨h1, h2, ?_⟩
    constructor
    · intro hmem
      rcases h3 _ hmem with h | h
      · simp at h
      · simp [Call.kind] at h
    · intro hcond
      exact absurd (hcf.symm.trans hcond) Bool.false_ne_true

/-- Closed instance of the C8 theorem: with the new planner on, a
non-SELECT statement whose built plan is logical enters the new
pipeline. -/
theorem optimize_branch_on_built_plan_type_witness :
    ∃ l conds, Call.predicatePushDown l conds ∈
      (Optimize sampleOracle true ⟨false, 4⟩ 0).trace :=
  (optimize_branch_on_built_plan_type sampleOracle true ⟨false, 4⟩ 0
    rfl rfl rfl).1.2 ⟨rfl, rfl⟩

/-- C6 counterexample: the claim that each of the six named optimizer
error categories has an entry in the error-code table is false —
`CodeUnsupported` has no entry. -/
theorem errcode_map_missing_unsupported :
    lookupMySQLErrCode CodeUnsupported = none := by
  decide

/-- C6 (amended): five of the six named optimizer error categories —
all except `Unsupported` — have an entry in the static error-code
mapping table installed once at process start. -/
theorem errcode_map_five_entries :
    (lookupMySQLErrCode CodeOneColumn).isSome = true ∧
    (lookupMySQLErrCode CodeSameColumns).isSome = true ∧
    (lookupMySQLErrCode CodeMultiWildCard).isSome = true ∧
    (lookupMySQLErrCode CodeInvalidGroupFuncUse).isSome = true ∧
    (lookupMySQLErrCode CodeIllegalReference).isSome = true ∧
    lookupMySQLErrCode CodeUnsupported = none := by
  decide

/-- C9: the category-to-engine-code mapping is not injective and is
partial at the category level: `OneColumn` and `SameColumns` both map to
`ErrOperandColumns`, `MultiWildCard` maps to the generic parse-error
code `ErrParse`, and the table has no entry for `CodeUnsupported`. -/
theorem errcode_map_shared_and_missing_codes :
    lookupMySQLErrCode CodeOneColumn = some ErrOperandColumns ∧
    lookupMySQLErrCode CodeSameColumns = some ErrOperandColumns ∧
    lookupMySQLErrCode CodeMultiWildCard = some ErrParse ∧
    CodeOneColumn ≠ CodeSameColumns ∧
    lookupMySQLErrCode CodeUnsupported = none := by
  decide

/-- C10: `PrepareStmt` always sets AST flags first, then runs
`Preprocess`, then `Validate`, short-circuiting on the first failure: it
returns the wrapped error of the first failing step without invoking
later steps, and returns nil exactly when both `Preprocess` and
`Validate` succeed. -/
theorem prepareStmt_step_order (o : PrepOracle) (node : Node) :
    (∀ e, o.Preprocess node = some e →
      PrepareStmt o node =
        ⟨some e.traced, [PrepCall.setFlag node, PrepCall.preprocess node]⟩) ∧
    (∀ e, o.Preprocess node = none → o.Validate node true = some e →
      PrepareStmt o node =
        ⟨some e.traced, [PrepCall.setFlag node, PrepCall.preprocess node,
          PrepCall.validate node true]⟩) ∧
    ((PrepareStmt o node).err = none ↔
      (o.Preprocess node = none ∧ o.Validate node true = none)) ∧
    ((PrepareStmt o node).trace.head? = some (PrepCall.setFlag node)) := by
  refine ⟨?_, ?_, ?_, ?_⟩
  · intro e hp
    unfold PrepareStmt
    rw [hp]
  · intro e hp hv
    unfold PrepareStmt
    rw [hp, hv]
  · constructor
    · intro hnil
      cases hp : o.Preprocess node with
      | some e =>
        unfold PrepareStmt at hnil
        rw [hp] at hnil
        cases hnil
      | none =>
        cases hv : o.Validate node true with
        | some e =>
          unfold PrepareStmt at hnil
          rw [hp, hv] at hnil
          cases hnil
        | none => exact ⟨rfl, rfl⟩
    · rintro ⟨hp, hv⟩
      unfold PrepareStmt
      rw [hp, hv]
  · unfold PrepareStmt
    cases hp : o.Preprocess node with
    | some e => rfl
    | none =>
      cases hv : o.Validate node true with
      | some e => rfl
      | none => rfl

/-- Closed instances of the C10 theorem: a failing `Preprocess`
short-circuits before `Validate`, and an all-success run returns nil. -/
theorem prepareStmt_step_order_witness :
    PrepareStmt failPreprocessOracle ⟨true, 1⟩ =
      ⟨some (GoErr.base 9).traced,
        [PrepCall.setFlag ⟨true, 1⟩, PrepCall.preprocess ⟨true, 1⟩]⟩ ∧
    (PrepareStmt samplePrepOracle ⟨true, 1⟩).err = none :=
  ⟨(prepareStmt_step_order failPreprocessOracle ⟨true, 1⟩).1 (GoErr.base 9) rfl,
    (prepareStmt_step_order samplePrepOracle ⟨true, 1⟩).2.2.1.2 ⟨rfl, rfl⟩⟩

/-- Closed instance of the C2 theorem: a failing `PredicatePushDown`
yields the first-failure shape on a concrete oracle. -/
theorem optimize_first_failure_aborts_witness :
    FirstFailure failPushDownOracle
      (Optimize failPushDownOracle true ⟨true, 5⟩ 0) :=
  optimize_first_failure_aborts failPushDownOracle true ⟨true, 5⟩ 0

/-- Closed instance of the C5 theorem on a concrete oracle and node. -/
theorem optimize_refine_convert_mutually_exclusive_witness :
    (((Optimize sampleOracle true ⟨true, 2⟩ 0).trace.any Call.isRefine) &&
      ((Optimize sampleOracle true ⟨true, 2⟩ 0).trace.any
        Call.isConvert2PhysicalPlan)) = false :=
  optimize_refine_convert_mutually_exclusive sampleOracle true ⟨true, 2⟩ 0

end TidbPlan
